import Mathlib

/-!
Shallow embedding of the Cameron music-theory engine (src/notes.rs,
src/chords.rs, src/scales.rs).  Rust `u8` arithmetic is modelled over `Nat`:
the one subtraction that can underflow (`Note::get_index` on a flat note,
`0u8 - 1`) is modelled with release-mode wrapping semantics (`% 256`) and the
debug-mode overflow panic is tracked by the separate flag
`Note.get_index_underflows`.  Rust `panic!` paths (`Interval::get_number_semitones`
on an unsupported interval, and the checked subtraction of `Diminished`)
are modelled by `Option`, `none` standing for the aborted computation.
-/

namespace Cameron

/-- The seven natural letter names, `src/notes.rs` `enum WhiteNote`. -/
inductive WhiteNote
  | C | D | E | F | G | A | B
deriving DecidableEq, Repr, Fintype

/-- A pitch class: letter plus accidental, `src/notes.rs` `enum Note`. -/
inductive Note
  | WhiteNote : WhiteNote → Note
  | Sharp : WhiteNote → Note
  | Flat : WhiteNote → Note
deriving DecidableEq, Repr, Fintype

/-- Interval qualities, `src/notes.rs` `enum IntervalQuality`. -/
inductive IntervalQuality
  | Perfect | Major | Minor | Augmented | Diminished
deriving DecidableEq, Repr, Fintype

/-- An interval: quality plus diatonic number, `src/notes.rs` `struct Interval`. -/
structure Interval where
  quality : IntervalQuality
  number : Nat
deriving DecidableEq, Repr

/-- `WhiteNote::get_index` (letter-cycle position 0..6). -/
def WhiteNote.get_index : WhiteNote → Nat
  | .C => 0
  | .D => 1
  | .E => 2
  | .F => 3
  | .G => 4
  | .A => 5
  | .B => 6

/-- `WhiteNote::successor` (cyclic next letter). -/
def WhiteNote.successor : WhiteNote → WhiteNote
  | .C => .D
  | .D => .E
  | .E => .F
  | .F => .G
  | .G => .A
  | .A => .B
  | .B => .C

/-- `WhiteNote::nth_successor`: the source loops `n` times applying `successor`. -/
def WhiteNote.nth_successor (w : WhiteNote) : Nat → WhiteNote
  | 0 => w
  | n + 1 => (w.nth_successor n).successor

/-- Semitone position of a natural letter, the `Note::WhiteNote` arm of
`Note::get_index` ({C:0, D:2, E:4, F:5, G:7, A:9, B:11}). -/
def WhiteNote.semitone_pos : WhiteNote → Nat
  | .C => 0
  | .D => 2
  | .E => 4
  | .F => 5
  | .G => 7
  | .A => 9
  | .B => 11

/-- `Note::get_index`.  Natural → table; sharp → `(1 + index) % 12`; flat →
`index - 1` on `u8`, modelled here with wrapping (release-mode) semantics
`(index + 255) % 256`; so `Flat C` yields `255`, not `11`. -/
def Note.get_index : Note → Nat
  | .WhiteNote w => w.semitone_pos
  | .Sharp w => (1 + w.semitone_pos) % 12
  | .Flat w => (w.semitone_pos + 255) % 256

/-- True when the `u8` subtraction inside `Note::get_index` underflows, which
in a debug build is an "attempt to subtract with overflow" panic. -/
def Note.get_index_underflows : Note → Bool
  | .Flat w => w.semitone_pos == 0
  | _ => false

/-- The `PartialEq` impl for `Note`: equality of `get_index` values. -/
def Note.note_eq (a b : Note) : Bool :=
  a.get_index == b.get_index

/-- `Note::up_semitone`, the hand-written transition table. -/
def Note.up_semitone : Note → Note
  | .WhiteNote w => .Sharp w
  | .Sharp .C => .WhiteNote .D
  | .Sharp .D => .WhiteNote .E
  | .Sharp .E => .Sharp .F
  | .Sharp .F => .WhiteNote .G
  | .Sharp .G => .WhiteNote .A
  | .Sharp .A => .WhiteNote .B
  | .Sharp .B => .Sharp .C
  | .Flat w => .WhiteNote w

/-- `Note::up_semitones`: the source loops `n` times applying `up_semitone`. -/
def Note.up_semitones (p : Note) : Nat → Note
  | 0 => p
  | n + 1 => (p.up_semitones n).up_semitone

/-- `Note::get_white_note`. -/
def Note.get_white_note : Note → Cameron.WhiteNote
  | .WhiteNote w => w
  | .Sharp w => w
  | .Flat w => w

/-- `Note::add_accidentals`: compare (by `get_index`, as `PartialEq`/`PartialOrd`
do) the walked note against the natural version of the target letter; keep it
when equal, flatten the target when below, sharpen when above. -/
def Note.add_accidentals (p : Note) (other : Cameron.WhiteNote) : Note :=
  if p.note_eq (.WhiteNote other) then p
  else if p.get_index < (Note.WhiteNote other).get_index then .Flat other
  else .Sharp other

/-- The `Perfect` table of `Interval::get_number_semitones`; the wildcard arm
is `panic!("Invalid interval")`, modelled as `none`. -/
def perfect_semitones : Nat → Option Nat
  | 1 => some 0
  | 4 => some 5
  | 5 => some 7
  | 8 => some 12
  | _ => none

/-- The `Major` table of `Interval::get_number_semitones`; wildcard arm panics. -/
def major_semitones : Nat → Option Nat
  | 2 => some 2
  | 3 => some 4
  | 6 => some 9
  | 7 => some 11
  | _ => none

/-- `Interval::get_number_semitones`.  The source derives Minor/Augmented/
Diminished recursively from the Major/Perfect tables; the `- 1` is a `u8`
subtraction whose underflow (Diminished 1, `0u8 - 1`) is a debug-build panic,
modelled as `none`. -/
def Interval.get_number_semitones (i : Interval) : Option Nat :=
  match i.quality with
  | .Perfect => perfect_semitones i.number
  | .Major => major_semitones i.number
  | .Minor => (major_semitones i.number).bind
      (fun k => if k = 0 then none else some (k - 1))
  | .Augmented => (perfect_semitones i.number).map (· + 1)
  | .Diminished => (perfect_semitones i.number).bind
      (fun k => if k = 0 then none else some (k - 1))

/-- `Note::up_interval`: target letter `number - 1` letters up, walk the
semitone count, reconcile with `add_accidentals`.  A panicking semitone lookup
propagates as `none`. -/
def Note.up_interval (p : Note) (i : Interval) : Option Note :=
  i.get_number_semitones.map fun n =>
    (p.up_semitones n).add_accidentals (p.get_white_note.nth_successor (i.number - 1))

/-- The letter of a white note as a string, Rust's `{:?}` debug format. -/
def WhiteNote.letter : WhiteNote → String
  | .C => "C"
  | .D => "D"
  | .E => "E"
  | .F => "F"
  | .G => "G"
  | .A => "A"
  | .B => "B"

/-- The `fmt::Display` impl for `Note` in `src/notes.rs`, with its four
enharmonic exceptions. -/
def Note.display : Note → String
  | .WhiteNote w => w.letter
  | .Sharp .B => "C"
  | .Sharp .E => "F"
  | .Sharp w => w.letter ++ "#"
  | .Flat .C => "B"
  | .Flat .F => "E"
  | .Flat w => w.letter ++ "b"

/-- First-character letter lookup inside `Note::from_str` (uppercase only). -/
def letter_of_char : Char → Option WhiteNote
  | 'C' => some .C
  | 'D' => some .D
  | 'E' => some .E
  | 'F' => some .F
  | 'G' => some .G
  | 'A' => some .A
  | 'B' => some .B
  | _ => none

/-- `Note::from_str` on the character list of the input: leading letter,
optional `#`/`b`, trailing characters ignored. -/
def Note.from_str : List Char → Option Note
  | [] => none
  | c :: rest =>
    (letter_of_char c).map fun w =>
      match rest with
      | '#' :: _ => Note.Sharp w
      | 'b' :: _ => Note.Flat w
      | _ => Note.WhiteNote w

/-- Chord qualities, `src/chords.rs` `enum ChordQuality`, in `EnumIter`
declaration order. -/
inductive ChordQuality
  | Major | Minor | DominantSeventh | MajorSeventh | MinorSeventh
deriving DecidableEq, Repr, Fintype

/-- A chord: root plus quality, `src/chords.rs` `struct Chord`. -/
structure Chord where
  root : Note
  quality : ChordQuality
deriving DecidableEq, Repr

/-- `Chord::get_notes`: the five hand-written branches of the source, each
building the tone list from `up_interval`.  A panicking interval lookup
(impossible for these five branches) would propagate as `none`. -/
def Chord.get_notes (c : Chord) : Option (List Note) :=
  match c.quality with
  | .Major =>
    (c.root.up_interval ⟨.Major, 3⟩).bind fun third =>
    (c.root.up_interval ⟨.Perfect, 5⟩).map fun fifth =>
    [c.root, third, fifth]
  | .Minor =>
    (c.root.up_interval ⟨.Minor, 3⟩).bind fun third =>
    (c.root.up_interval ⟨.Perfect, 5⟩).map fun fifth =>
    [c.root, third, fifth]
  | .DominantSeventh =>
    (c.root.up_interval ⟨.Major, 3⟩).bind fun third =>
    (c.root.up_interval ⟨.Perfect, 5⟩).bind fun fifth =>
    (c.root.up_interval ⟨.Minor, 7⟩).map fun seventh =>
    [c.root, third, fifth, seventh]
  | .MajorSeventh =>
    (c.root.up_interval ⟨.Major, 3⟩).bind fun third =>
    (c.root.up_interval ⟨.Perfect, 5⟩).bind fun fifth =>
    (c.root.up_interval ⟨.Major, 7⟩).map fun seventh =>
    [c.root, third, fifth, seventh]
  | .MinorSeventh =>
    (c.root.up_interval ⟨.Minor, 3⟩).bind fun third =>
    (c.root.up_interval ⟨.Perfect, 5⟩).bind fun fifth =>
    (c.root.up_interval ⟨.Minor, 7⟩).map fun seventh =>
    [c.root, third, fifth, seventh]

/-- The character class `[A-Ga-g]` of the chord regex. -/
def is_regex_letter (c : Char) : Bool :=
  ('A' ≤ c && c ≤ 'G') || ('a' ≤ c && c ≤ 'g')

/-- The leftmost match of `([A-Ga-g][#b]?)((?:maj7|m7|7|m)?)` (Rust regex
`captures`, leftmost-first): scan for the first `[A-Ga-g]` character, then
greedily take an optional accidental; returns the group-1 characters and the
remainder the quality group matches against. -/
def regex_scan : List Char → Option (List Char × List Char)
  | [] => none
  | c :: rest =>
    if is_regex_letter c then
      match rest with
      | '#' :: r2 => some ([c, '#'], r2)
      | 'b' :: r2 => some ([c, 'b'], r2)
      | _ => some ([c], rest)
    else regex_scan rest

/-- Does `pat` occur at the start of `s`? -/
def starts_with : List Char → List Char → Bool
  | [], _ => true
  | _ :: _, [] => false
  | a :: as, b :: bs => a == b && starts_with as bs

/-- Group 2 of the chord regex plus the `match` in `Chord::from_str`: the
alternation `maj7|m7|7|m` is tried in order (leftmost-first alternation
semantics), an empty match falling through to `ChordQuality::Major`. -/
def suffix_quality (s : List Char) : ChordQuality :=
  if starts_with ['m', 'a', 'j', '7'] s then .MajorSeventh
  else if starts_with ['m', '7'] s then .MinorSeventh
  else if starts_with ['7'] s then .DominantSeventh
  else if starts_with ['m'] s then .Minor
  else .Major

/-- `Chord::from_str`: capture with the (unanchored) regex, parse the root
capture with `Note::from_str`, map the quality capture. -/
def Chord.from_str (s : List Char) : Option Chord :=
  (regex_scan s).bind fun g =>
    (Note.from_str g.1).map fun r => Chord.mk r (suffix_quality g.2)

/-- `WhiteNote::iter()` of strum's `EnumIter`: declaration order. -/
def white_note_iter : List WhiteNote :=
  [.C, .D, .E, .F, .G, .A, .B]

/-- `ChordQuality::iter()`: declaration order. -/
def chord_quality_iter : List ChordQuality :=
  [.Major, .Minor, .DominantSeventh, .MajorSeventh, .MinorSeventh]

/-- `Chord::reverse_lookup`: for every white note, each of its three
spellings as candidate root, and every quality, keep the chord when every
input note is contained (by the `PartialEq` on `Note`, i.e. `get_index`
equality) in the chord's tone list.  The `HashSet` is modelled as the list of
inserted chords — the 105 candidates are pairwise structurally distinct.
`get_notes` never panics on these candidates, so `getD []` is never taken. -/
def Chord.reverse_lookup (notes : List Note) : List Chord :=
  ((white_note_iter.flatMap fun w =>
      [Note.WhiteNote w, Note.Sharp w, Note.Flat w]).flatMap fun root =>
    chord_quality_iter.map fun q => Chord.mk root q).filter fun c =>
      notes.all fun n => ((c.get_notes).getD []).any fun m => m.note_eq n

/-- Scale types, `src/scales.rs` `enum ScaleType`. -/
inductive ScaleType
  | Major | Minor
deriving DecidableEq, Repr, Fintype

/-- A scale: root plus type, `src/scales.rs` `struct Scale`. -/
structure Scale where
  root : Note
  scale_type : ScaleType
deriving DecidableEq, Repr

/-- `Scale::get_notes`: the two hand-written seven-element vectors of the
source, degrees built from `up_interval`. -/
def Scale.get_notes (s : Scale) : Option (List Note) :=
  match s.scale_type with
  | .Major =>
    (s.root.up_interval ⟨.Major, 2⟩).bind fun d2 =>
    (s.root.up_interval ⟨.Major, 3⟩).bind fun d3 =>
    (s.root.up_interval ⟨.Perfect, 4⟩).bind fun d4 =>
    (s.root.up_interval ⟨.Perfect, 5⟩).bind fun d5 =>
    (s.root.up_interval ⟨.Major, 6⟩).bind fun d6 =>
    (s.root.up_interval ⟨.Major, 7⟩).map fun d7 =>
    [s.root, d2, d3, d4, d5, d6, d7]
  | .Minor =>
    (s.root.up_interval ⟨.Major, 2⟩).bind fun d2 =>
    (s.root.up_interval ⟨.Minor, 3⟩).bind fun d3 =>
    (s.root.up_interval ⟨.Perfect, 4⟩).bind fun d4 =>
    (s.root.up_interval ⟨.Perfect, 5⟩).bind fun d5 =>
    (s.root.up_interval ⟨.Minor, 6⟩).bind fun d6 =>
    (s.root.up_interval ⟨.Minor, 7⟩).map fun d7 =>
    [s.root, d2, d3, d4, d5, d6, d7]

/-- Follows the spec's definition of `semitone_value` (§4.1): natural →
semitone position; sharp → `(position + 1) mod 12`; flat → `(position - 1)
mod 12` with unsigned-safe wraparound.  Spec-side comparator, kept separate
from the source-faithful `Note.get_index`. -/
def spec_semitone_value : Note → Nat
  | .WhiteNote w => w.semitone_pos
  | .Sharp w => (w.semitone_pos + 1) % 12
  | .Flat w => (w.semitone_pos + 11) % 12

/-- The chord interval recipe as the spec states it (§4.3), per quality. -/
def spec_chord_intervals : ChordQuality → List Interval
  | .Major => [⟨.Major, 3⟩, ⟨.Perfect, 5⟩]
  | .Minor => [⟨.Minor, 3⟩, ⟨.Perfect, 5⟩]
  | .DominantSeventh => [⟨.Major, 3⟩, ⟨.Perfect, 5⟩, ⟨.Minor, 7⟩]
  | .MajorSeventh => [⟨.Major, 3⟩, ⟨.Perfect, 5⟩, ⟨.Major, 7⟩]
  | .MinorSeventh => [⟨.Minor, 3⟩, ⟨.Perfect, 5⟩, ⟨.Minor, 7⟩]

/-- The scale interval recipe as the spec states it (§4.4), per type. -/
def spec_scale_intervals : ScaleType → List Interval
  | .Major => [⟨.Major, 2⟩, ⟨.Major, 3⟩, ⟨.Perfect, 4⟩,
      ⟨.Perfect, 5⟩, ⟨.Major, 6⟩, ⟨.Major, 7⟩]
  | .Minor => [⟨.Major, 2⟩, ⟨.Minor, 3⟩, ⟨.Perfect, 4⟩,
      ⟨.Perfect, 5⟩, ⟨.Minor, 6⟩, ⟨.Minor, 7⟩]

/-- The flat interval-to-semitone table as the amended claim states it:
Perfect {1:0, 4:5, 5:7, 8:12}; Major {2:2, 3:4, 6:9, 7:11}; Minor {2:1, 3:3,
6:8, 7:10}; Augmented {1:1, 4:6, 5:8, 8:13}; Diminished {4:4, 5:6, 8:11};
every other combination — Diminished 1 included — yields no value. -/
def spec_interval_table : IntervalQuality → Nat → Option Nat
  | .Perfect, 1 => some 0
  | .Perfect, 4 => some 5
  | .Perfect, 5 => some 7
  | .Perfect, 8 => some 12
  | .Major, 2 => some 2
  | .Major, 3 => some 4
  | .Major, 6 => some 9
  | .Major, 7 => some 11
  | .Minor, 2 => some 1
  | .Minor, 3 => some 3
  | .Minor, 6 => some 8
  | .Minor, 7 => some 10
  | .Augmented, 1 => some 1
  | .Augmented, 4 => some 6
  | .Augmented, 5 => some 8
  | .Augmented, 8 => some 13
  | .Diminished, 4 => some 4
  | .Diminished, 5 => some 6
  | .Diminished, 8 => some 11
  | _, _ => none

/-- The supported intervals with a positive semitone count, the domain of the
amended C1 claim: Perfect 4/5/8, Major and Minor 2/3/6/7, Augmented 1/4/5/8,
Diminished 4/5/8. -/
def supported_intervals : List Interval :=
  [⟨.Perfect, 4⟩, ⟨.Perfect, 5⟩, ⟨.Perfect, 8⟩,
   ⟨.Major, 2⟩, ⟨.Major, 3⟩, ⟨.Major, 6⟩, ⟨.Major, 7⟩,
   ⟨.Minor, 2⟩, ⟨.Minor, 3⟩, ⟨.Minor, 6⟩, ⟨.Minor, 7⟩,
   ⟨.Augmented, 1⟩, ⟨.Augmented, 4⟩, ⟨.Augmented, 5⟩, ⟨.Augmented, 8⟩,
   ⟨.Diminished, 4⟩, ⟨.Diminished, 5⟩, ⟨.Diminished, 8⟩]

/-- The walked pitch of the amended C1 claim: the root's spec semitone value
plus the interval's semitone count, mod 12. -/
def walked_pitch (p : Note) (i : Interval) : Nat :=
  (spec_semitone_value p + i.get_number_semitones.getD 0) % 12

/-- The target letter of the spelling algorithm: `number - 1` letters above
the root's letter. -/
def target_letter (p : Note) (i : Interval) : WhiteNote :=
  p.get_white_note.nth_successor (i.number - 1)

/-- Is the note spelled with a flat accidental? -/
def Note.is_flat_spelled : Note → Bool
  | .Flat _ => true
  | _ => false

/-! ## Theorems settling the claims -/

/-- Claim C1, counterexample.  A perfect fourth above natural C: the walked
pitch (5) equals the natural target letter F's semitone value, so the claim
requires the result to be respelled as Natural(F); the code's
`add_accidentals` instead keeps the walked spelling `Sharp(E)`, a structurally
different pitch class. -/
theorem up_interval_natural_respell_counterexample :
    (Note.WhiteNote .C).up_interval ⟨.Perfect, 4⟩ = some (Note.Sharp .E) ∧
    Note.Sharp .E ≠ Note.WhiteNote .F := by decide

/-- Claim C1, amended.  For every root pitch class and every supported
interval with a positive semitone count (Perfect 4/5/8, Major and Minor
2/3/6/7, Augmented 1/4/5/8, Diminished 4/5/8), write `c` for
`(semitone_value(root) + count) mod 12` and `t` for the natural target
letter's semitone value.  When `c = t` the walked note is returned with its
walked spelling — enharmonically equal to the natural target letter, but not
always spelled as it; when `c` is one semitone below `t` the result is
Flat(target); when one above, Sharp(target); and when `c` and `t` straddle
the octave boundary the raw (non-modular) comparison inverts the rule:
`t = 0, c = 11` yields Sharp(target) and `t = 11, c = 0` yields
Flat(target). -/
theorem up_interval_reconciliation (p : Note) (i : Interval)
    (hi : i ∈ supported_intervals) :
    (walked_pitch p i = (target_letter p i).semitone_pos →
        p.up_interval i = some (p.up_semitones (i.get_number_semitones.getD 0)) ∧
        spec_semitone_value (p.up_semitones (i.get_number_semitones.getD 0)) =
          (target_letter p i).semitone_pos) ∧
    (walked_pitch p i + 1 = (target_letter p i).semitone_pos →
        p.up_interval i = some (Note.Flat (target_letter p i))) ∧
    (walked_pitch p i = (target_letter p i).semitone_pos + 1 →
        p.up_interval i = some (Note.Sharp (target_letter p i))) ∧
    ((target_letter p i).semitone_pos = 0 → walked_pitch p i = 11 →
        p.up_interval i = some (Note.Sharp (target_letter p i))) ∧
    ((target_letter p i).semitone_pos = 11 → walked_pitch p i = 0 →
        p.up_interval i = some (Note.Flat (target_letter p i))) := by
  revert p i hi
  decide

/-- Witness for the amended C1 theorem, at root D and a major third: the
walked pitch 6 is one above the target letter F's value 5, and the result is
Sharp(F). -/
theorem up_interval_reconciliation_witness :
    (⟨.Major, 3⟩ : Interval) ∈ supported_intervals ∧
    walked_pitch (Note.WhiteNote .D) ⟨.Major, 3⟩ =
      (target_letter (Note.WhiteNote .D) ⟨.Major, 3⟩).semitone_pos + 1 ∧
    (Note.WhiteNote .D).up_interval ⟨.Major, 3⟩ =
      some (Note.Sharp (target_letter (Note.WhiteNote .D) ⟨.Major, 3⟩)) :=
  ⟨by decide, by decide,
    (up_interval_reconciliation (Note.WhiteNote .D) ⟨.Major, 3⟩
      (by decide)).2.2.1 (by decide)⟩

/-- Claim C2 (code bug).  The code computes the semitone value of a flat note
as `get_index - 1` on `u8` with no wraparound: at Flat(C) the subtraction
`0 - 1` underflows — an overflow panic in a debug build, and the wrapped
value 255 (not the spec's 11) in a release build. -/
theorem flat_c_get_index_underflow :
    Note.get_index (Note.Flat .C) = 255 ∧
    Note.get_index_underflows (Note.Flat .C) = true ∧
    spec_semitone_value (Note.Flat .C) = 11 := by decide

/-- Claim C3, counterexample.  `up_semitone` sends Sharp(E) to Sharp(F) (the
pitch one semitone above E#'s sound F), not to Natural(F) as the claim
states — Natural(F) sounds the same as Sharp(E) itself. -/
theorem up_semitone_sharp_e_counterexample :
    (Note.Sharp .E).up_semitone = Note.Sharp .F ∧
    Note.Sharp .F ≠ Note.WhiteNote .F := by decide

/-- Claim C3, amended.  `up_semitone` maps each of the 21 pitch classes to a
pitch class exactly one semitone higher by semitone value (mod 12), never
producing a flat spelling or needing double accidentals; a natural always
maps to its own sharp (so Natural(E) goes to Sharp(E), which sounds as F),
and Sharp(E) maps to Sharp(F). -/
theorem up_semitone_one_higher :
    (∀ p : Note,
        spec_semitone_value p.up_semitone = (spec_semitone_value p + 1) % 12 ∧
        p.up_semitone.is_flat_spelled = false) ∧
    (∀ w : WhiteNote, (Note.WhiteNote w).up_semitone = Note.Sharp w) ∧
    (Note.Sharp .E).up_semitone = Note.Sharp .F := by decide

/-- Claim C4.  For every root and quality, `Chord::get_notes` is the root
followed by the chord tones of the spec's per-quality interval recipe, in
ascending interval-number order; in particular the D major chord is
[Natural(D), Sharp(F), Natural(A)]. -/
theorem chord_get_notes_spec :
    (∀ (r : Note) (q : ChordQuality),
        Chord.get_notes ⟨r, q⟩ =
          ((spec_chord_intervals q).mapM r.up_interval).map (r :: ·)) ∧
    Chord.get_notes ⟨Note.WhiteNote .D, .Major⟩ =
      some [Note.WhiteNote .D, Note.Sharp .F, Note.WhiteNote .A] := by decide

/-- Claim C5.  For every root and scale type, `Scale::get_notes` is the root
followed by the six degrees of the spec's per-type interval recipe — seven
pitch classes in all; in particular the A major scale is
[A, B, Sharp(C), D, E, Sharp(F), Sharp(G)]. -/
theorem scale_get_notes_spec :
    (∀ (r : Note) (t : ScaleType),
        Scale.get_notes ⟨r, t⟩ =
          ((spec_scale_intervals t).mapM r.up_interval).map (r :: ·) ∧
        (Scale.get_notes ⟨r, t⟩).map List.length = some 7) ∧
    Scale.get_notes ⟨Note.WhiteNote .A, .Major⟩ =
      some [Note.WhiteNote .A, Note.WhiteNote .B, Note.Sharp .C,
        Note.WhiteNote .D, Note.WhiteNote .E, Note.Sharp .F,
        Note.Sharp .G] := by decide

/-- Claim C6 (code bug).  The Flat(C)-major chord's tones sound as semitone
values {11, 3, 6}, a superset of the input {Natural(B)} = {11}, so the claim
requires `reverse_lookup [Natural B]` to contain it; the code's containment
test uses `get_index`, which gives Flat(C) the underflowed value 255, so the
chord is excluded.  The positive instance of the claim does hold: C major is
found for {C, E, G}. -/
theorem reverse_lookup_flat_c_gap :
    Chord.mk (Note.Flat .C) ChordQuality.Major ∉
      Chord.reverse_lookup [Note.WhiteNote .B] ∧
    ((Chord.mk (Note.Flat .C) ChordQuality.Major).get_notes.getD []).any
      (fun m => spec_semitone_value m == spec_semitone_value (Note.WhiteNote .B))
      = true ∧
    Chord.mk (Note.WhiteNote .C) ChordQuality.Major ∈
      Chord.reverse_lookup
        [Note.WhiteNote .C, Note.WhiteNote .E, Note.WhiteNote .G] := by decide

/-- Claim C7, counterexample.  The chord regex is unanchored: on "xC" the
leading pitch class cannot be parsed (`Note::from_str` fails on 'x'), yet
`Chord::from_str` matches the letter at position 1 and returns C major
instead of None. -/
theorem chord_from_str_unanchored_counterexample :
    Chord.from_str "xC".data = some ⟨Note.WhiteNote .C, .Major⟩ ∧
    Note.from_str "xC".data = none := by decide

/-- Claim C7, amended.  `Chord::from_str` parses at the leftmost character in
[A-Ga-g] (not necessarily the leading one): it returns None exactly when the
pitch-class capture at that position fails to parse — that is, when the
string has no such character, or the leftmost one is lowercase.  The quality
is the longest matching suffix in priority order maj7, m7, 7, m, and an
unrecognized suffix defaults to Major rather than failing. -/
theorem chord_from_str_failure_and_suffixes :
    (∀ s : List Char,
        (Chord.from_str s = none ↔
          (regex_scan s).bind (fun g => Note.from_str g.1) = none)) ∧
    Chord.from_str "Cmaj7".data = some ⟨Note.WhiteNote .C, .MajorSeventh⟩ ∧
    Chord.from_str "Cm7".data = some ⟨Note.WhiteNote .C, .MinorSeventh⟩ ∧
    Chord.from_str "C7".data = some ⟨Note.WhiteNote .C, .DominantSeventh⟩ ∧
    Chord.from_str "Cm".data = some ⟨Note.WhiteNote .C, .Minor⟩ ∧
    Chord.from_str "C".data = some ⟨Note.WhiteNote .C, .Major⟩ ∧
    Chord.from_str "Cx".data = some ⟨Note.WhiteNote .C, .Major⟩ := by
  refine ⟨fun s => ?_, by decide⟩
  cases hg : regex_scan s with
  | none => simp [Chord.from_str, hg]
  | some g =>
    cases hn : Note.from_str g.1 with
    | none => simp [Chord.from_str, hg, hn]
    | some r => simp [Chord.from_str, hg, hn]

/-- Claim C8, counterexample.  Diminished 1 is a Diminished variant of a
Perfect number, so the claim's table prescribes the value Perfect(1) - 1;
since Perfect(1) is 0, the `u8` subtraction underflows (a panic in a debug
build) and no value is returned. -/
theorem diminished_unison_counterexample :
    Interval.get_number_semitones ⟨.Diminished, 1⟩ = none ∧
    perfect_semitones 1 = some 0 := by decide

/-- Claim C8, amended.  `Interval::get_number_semitones` agrees everywhere
with the flat table Perfect {1:0, 4:5, 5:7, 8:12}, Major {2:2, 3:4, 6:9,
7:11}, Minor = Major - 1, Augmented = Perfect + 1, Diminished = Perfect - 1
for numbers 4/5/8 — and yields no value (fails loudly) on every other
quality/number combination, Diminished 1 included, whose derived count
would be negative. -/
theorem interval_semitones_table (q : IntervalQuality) (n : Nat) :
    Interval.get_number_semitones ⟨q, n⟩ = spec_interval_table q n := by
  rcases n with _ | _ | _ | _ | _ | _ | _ | _ | _ | n <;> cases q <;> rfl

/-- Claim C9.  For every one of the 21 representable pitch classes `p`,
parsing the display form of `p` succeeds and yields a pitch class with the
same semitone value (the spec's mod-12 value) as `p` — the display
exceptions Sharp(B)→"C", Sharp(E)→"F", Flat(C)→"B", Flat(F)→"E" re-parse to
enharmonically equal naturals. -/
theorem parse_display_roundtrip (p : Note) :
    (Note.from_str p.display.data).map spec_semitone_value =
      some (spec_semitone_value p) := by
  revert p
  decide

/-- Claim C10.  Walking any pitch class up one or more semitones never
yields a flat spelling: `up_semitone` maps naturals to sharps, sharps to
naturals or sharps, and flats to naturals, so after at least one step the
result is structurally a Natural or a Sharp. -/
theorem up_semitones_never_flat (p : Note) (n : Nat) :
    (p.up_semitones (n + 1)).is_flat_spelled = false := by
  show ((p.up_semitones n).up_semitone).is_flat_spelled = false
  exact (by decide : ∀ q : Note, q.up_semitone.is_flat_spelled = false) _

end Cameron
